import Mathlib

set_option linter.unusedVariables false

/-!
Verification of the certificate-generator logic in gen.py.

The program's helper logic is embedded shallowly: spreadsheet cells become
an inductive Value type mirroring the Python values openpyxl can yield
(None, strings, integers, datetimes), Python dictionaries built from
key/value pairs become association lists looked up from the right
(last-binding wins, as in dict construction), Python list indexing with
its IndexError becomes an Option-valued access, and an exception escaping
a helper becomes a none result.
-/

/-- A parsed date-and-time value, standing for Python datetime.datetime
(and datetime.date, with the time components zero). -/
structure PyDateTime where
  year : Nat
  month : Nat
  day : Nat
  hour : Nat
  minute : Nat
  second : Nat
deriving Repr, DecidableEq

/-- A spreadsheet cell value as delivered by openpyxl with data_only=True:
None, a string, an integer, or a date/datetime. -/
inductive Value where
  | vNone
  | vStr (s : String)
  | vInt (n : Int)
  | vDate (d : PyDateTime)
deriving Repr, DecidableEq

/-- Python truthiness of a cell value: None, the empty string and 0 are
falsy; datetime objects are always truthy. -/
def Value.truthy : Value → Bool
  | .vNone => false
  | .vStr s => !(s = "")
  | .vInt n => !(n = 0)
  | .vDate _ => true

/-- Left-pad a number to two digits, as strftime %m/%d/%H/%M/%S do. -/
def pad2 (n : Nat) : String :=
  if n < 10 then "0" ++ toString n else toString n

/-- str() applied to a cell value.  str(None) is "None"; str of a datetime
is "YYYY-MM-DD HH:MM:SS" (zero-padded); str of an int is its decimal form. -/
def pyStr : Value → String
  | .vNone => "None"
  | .vStr s => s
  | .vInt n => toString n
  | .vDate d =>
      toString d.year ++ "-" ++ pad2 d.month ++ "-" ++ pad2 d.day ++ " " ++
        pad2 d.hour ++ ":" ++ pad2 d.minute ++ ":" ++ pad2 d.second

/-- The ASCII whitespace characters recognised by Python's str.strip and
by the regex class \s (unicode-only whitespace is not modelled). -/
def isPySpace (c : Char) : Bool :=
  c = ' ' || c = '\t' || c = '\n' || c = '\r' || c = '\x0b' || c = '\x0c'

/-- str.strip(): drop leading and trailing whitespace. -/
def pyStrip (l : List Char) : List Char :=
  ((l.dropWhile isPySpace).reverse.dropWhile isPySpace).reverse

/-- Boolean test that the first list is a prefix of the second. -/
def prefixOfList : List Char → List Char → Bool
  | [], _ => true
  | _ :: _, [] => false
  | a :: as, b :: bs => a = b && prefixOfList as bs

/-- Boolean test that the first list occurs contiguously inside the second. -/
def subListOf (p : List Char) : List Char → Bool
  | [] => p.isEmpty
  | c :: rest => prefixOfList p (c :: rest) || subListOf p rest

/-- Python's substring test kw in header. -/
def containsSub (kw s : String) : Bool :=
  subListOf kw.data s.data

/-- Lookup in a dict built from a list of key/value pairs: as in Python
dict construction, a later binding for the same key wins. -/
def lastAssoc {α : Type} (l : List (String × α)) (key : String) : Option α :=
  match l with
  | [] => none
  | (k, v) :: rest =>
      match lastAssoc rest key with
      | some w => some w
      | none => if k = key then some v else none

/-- dict.get(key, dflt). -/
def dictGetD {α : Type} (l : List (String × α)) (key : String) (dflt : α) : α :=
  (lastAssoc l key).getD dflt

/-- Python sequence indexing seq[i]: negative indices count from the end,
and an out-of-range index is an IndexError, modelled as none. -/
def pySeqGet {α : Type} (l : List α) (i : Int) : Option α :=
  let j := if i < 0 then i + l.length else i
  if 0 ≤ j ∧ j < (l.length : Int) then l.get? j.toNat else none

/-! ## Column matching (_map_columns) -/

/-- The fixed keyword dictionary of _map_columns, in source order. -/
def keywordTable : List (String × List String) :=
  [("name_zh", ["姓名", "legal name", "Name"]),
   ("gender_zh", ["性别", "Gender"]),
   ("id_type_zh", ["证件类型", "ID Type"]),
   ("id_number", ["身份证件号码", "No.", "ID Number"]),
   ("dob", ["出生日期", "Birth"]),
   ("admit_date", ["入学年份", "Admission"]),
   ("student_id", ["学号", "Student ID"]),
   ("grade", ["在读年级", "Grade"])]

/-- headers_str = [str(h) if h else "" for h in headers]. -/
def headersStrs (headers : List Value) : List String :=
  headers.map (fun h => if h.truthy then pyStr h else "")

/-- The inner loops of _map_columns: scan headers left to right and return
the index of the first header containing one of the keywords, else -1.
The running index starts at n. -/
def findCol (kws : List String) : List String → Nat → Int
  | [], _ => -1
  | h :: rest, idx =>
      if kws.any (fun kw => containsSub kw h) then (idx : Int)
      else findCol kws rest (idx + 1)

/-- The mapping dict assembled by _map_columns before its final check. -/
def buildMapping (headers : List Value) : List (String × Int) :=
  keywordTable.map (fun kv => (kv.1, findCol kv.2 (headersStrs headers) 0))

/-- _map_columns: returns None exactly when the name column was not found. -/
def map_columns (headers : List Value) : Option (List (String × Int)) :=
  if dictGetD (buildMapping headers) "name_zh" (-1) = -1 then none
  else some (buildMapping headers)

/-! ## Date parsing (_smart_date_parse)

CPython's strptime compiles each format directive to a regular expression
(%Y four digits; %m 1[0-2]|0[1-9]|[1-9]; %d 3[01]|[12]\d|0[1-9]|[1-9];
%H 2[0-3]|[0-1]\d|\d; %M [0-5]\d|\d; %S 6[0-1]|[0-5]\d|\d; whitespace in
the format becomes \s+), requires the match to cover the whole input, and
then builds a datetime, whose constructor re-validates the calendar
(year 1..9999, day within the month, second at most 59).  The parsers
below reproduce exactly that behaviour for the seven formats the program
lists, including the regex backtracking that matters for %Y%m%d.
Non-ASCII digits and non-ASCII whitespace are not modelled. -/

/-- Numeric value of a digit character. -/
def digitVal (c : Char) : Nat := c.toNat - 48

/-- Numeric value of a list of digit characters. -/
def digitsVal (l : List Char) : Nat := l.foldl (fun a c => a * 10 + digitVal c) 0

/-- A %Y field: exactly four digits. -/
def validYear (p : List Char) : Option Nat :=
  if p.length = 4 then some (digitsVal p) else none

/-- A %m field standing alone between separators: one or two digits, value
1..12 (the two-digit alternatives exclude 00, the one-digit one excludes 0). -/
def validMonth (p : List Char) : Option Nat :=
  if (p.length = 1 ∨ p.length = 2) ∧ 1 ≤ digitsVal p ∧ digitsVal p ≤ 12 then
    some (digitsVal p)
  else none

/-- A %d field standing alone between separators: one or two digits, 1..31. -/
def validDay (p : List Char) : Option Nat :=
  if (p.length = 1 ∨ p.length = 2) ∧ 1 ≤ digitsVal p ∧ digitsVal p ≤ 31 then
    some (digitsVal p)
  else none

/-- A %H field: one or two digits, 0..23. -/
def validHour (p : List Char) : Option Nat :=
  if (p.length = 1 ∨ p.length = 2) ∧ digitsVal p ≤ 23 then some (digitsVal p)
  else none

/-- A %M field: one or two digits, 0..59. -/
def validMinute (p : List Char) : Option Nat :=
  if (p.length = 1 ∨ p.length = 2) ∧ digitsVal p ≤ 59 then some (digitsVal p)
  else none

/-- A %S field at the regex level: one or two digits, 0..61 (leap seconds
pass the regex and are rejected later by the datetime constructor). -/
def validSecond (p : List Char) : Option Nat :=
  if (p.length = 1 ∨ p.length = 2) ∧ digitsVal p ≤ 61 then some (digitsVal p)
  else none

/-- Split off the maximal leading run of digits. -/
def takeRun (cs : List Char) : List Char × List Char :=
  (cs.takeWhile Char.isDigit, cs.dropWhile Char.isDigit)

/-- Consume one expected literal character. -/
def expectChar (c : Char) : List Char → Option (List Char)
  | x :: rest => if x = c then some rest else none
  | [] => none

/-- Consume one or more whitespace characters, as \s+ does. -/
def expectWs : List Char → Option (List Char)
  | x :: rest => if isPySpace x then some (rest.dropWhile isPySpace) else none
  | [] => none

/-- Raw field tuple of a full "%Y/%m/%d %H:%M:%S" match. -/
def fmtFull (cs : List Char) : Option (Nat × Nat × Nat × Nat × Nat × Nat) :=
  let (p1, r1) := takeRun cs
  match expectChar '/' r1 with
  | none => none
  | some r2 =>
    let (p2, r3) := takeRun r2
    match expectChar '/' r3 with
    | none => none
    | some r4 =>
      let (p3, r5) := takeRun r4
      match expectWs r5 with
      | none => none
      | some r6 =>
        let (p4, r7) := takeRun r6
        match expectChar ':' r7 with
        | none => none
        | some r8 =>
          let (p5, r9) := takeRun r8
          match expectChar ':' r9 with
          | none => none
          | some r10 =>
            let (p6, r11) := takeRun r10
            if r11 = [] then do
              let y ← validYear p1
              let mo ← validMonth p2
              let d ← validDay p3
              let h ← validHour p4
              let mi ← validMinute p5
              let s ← validSecond p6
              pure (y, mo, d, h, mi, s)
            else none

/-- Raw fields of a year-month-day format with a literal separator
("%Y/%m/%d", "%Y-%m-%d", "%Y.%m.%d"). -/
def fmtYmdSep (sep : Char) (cs : List Char) : Option (Nat × Nat × Nat) :=
  let (p1, r1) := takeRun cs
  match expectChar sep r1 with
  | none => none
  | some r2 =>
    let (p2, r3) := takeRun r2
    match expectChar sep r3 with
    | none => none
    | some r4 =>
      let (p3, r5) := takeRun r4
      if r5 = [] then do
        let y ← validYear p1
        let mo ← validMonth p2
        let d ← validDay p3
        pure (y, mo, d)
      else none

/-- Raw fields of "%m/%d/%Y". -/
def fmtMdy (cs : List Char) : Option (Nat × Nat × Nat) :=
  let (p1, r1) := takeRun cs
  match expectChar '/' r1 with
  | none => none
  | some r2 =>
    let (p2, r3) := takeRun r2
    match expectChar '/' r3 with
    | none => none
    | some r4 =>
      let (p3, r5) := takeRun r4
      if r5 = [] then do
        let mo ← validMonth p1
        let d ← validDay p2
        let y ← validYear p3
        pure (y, mo, d)
      else none

/-- Raw fields of "%Y-%m". -/
def fmtYm (cs : List Char) : Option (Nat × Nat) :=
  let (p1, r1) := takeRun cs
  match expectChar '-' r1 with
  | none => none
  | some r2 =>
    let (p2, r3) := takeRun r2
    if r3 = [] then do
      let y ← validYear p1
      let mo ← validMonth p2
      pure (y, mo)
    else none

/-- Two-digit month alternatives 1[0-2] then 0[1-9], in regex order. -/
def mAlt2 (c1 c2 : Char) : Option Nat :=
  if c1 = '1' ∧ '0' ≤ c2 ∧ c2 ≤ '2' then some (10 + digitVal c2)
  else if c1 = '0' ∧ '1' ≤ c2 ∧ c2 ≤ '9' then some (digitVal c2)
  else none

/-- One-digit month (or day) alternative [1-9]. -/
def mAlt1 (c : Char) : Option Nat :=
  if '1' ≤ c ∧ c ≤ '9' then some (digitVal c) else none

/-- Two-digit day alternatives 3[01], [12]\d, 0[1-9], in regex order. -/
def dAlt2 (c1 c2 : Char) : Option Nat :=
  if c1 = '3' ∧ (c2 = '0' ∨ c2 = '1') then some (30 + digitVal c2)
  else if (c1 = '1' ∨ c1 = '2') ∧ c2.isDigit then some (10 * digitVal c1 + digitVal c2)
  else if c1 = '0' ∧ '1' ≤ c2 ∧ c2 ≤ '9' then some (digitVal c2)
  else none

/-- The %d part of the %m%d tail: first day match in regex alternative
order, returning the day and how many characters it consumed. -/
def tryDay : List Char → Option (Nat × Nat)
  | c1 :: c2 :: _ =>
      match dAlt2 c1 c2 with
      | some d => some (d, 2)
      | none => (mAlt1 c1).map (fun d => (d, 1))
  | [c1] => (mAlt1 c1).map (fun d => (d, 1))
  | [] => none

/-- The %m%d tail of "%Y%m%d", with the regex engine's backtracking: the
two-digit month alternatives are tried first, and on failure of the whole
remainder the one-digit month alternative is retried.  Returns month, day
and the number of characters the match consumed. -/
def matchMd : List Char → Option (Nat × Nat × Nat)
  | c1 :: c2 :: rest =>
      match mAlt2 c1 c2, tryDay rest with
      | some m, some p => some (m, p.1, 2 + p.2)
      | _, _ =>
          match mAlt1 c1, tryDay (c2 :: rest) with
          | some m, some p => some (m, p.1, 1 + p.2)
          | _, _ => none
  | _ => none

/-- Raw fields of "%Y%m%d": four digits of year, then the first %m%d match;
strptime then requires the match to have consumed the whole string. -/
def fmtYmdCompact (cs : List Char) : Option (Nat × Nat × Nat) :=
  match cs with
  | a :: b :: c :: d :: rest =>
      if a.isDigit ∧ b.isDigit ∧ c.isDigit ∧ d.isDigit then
        match matchMd rest with
        | some (mo, dd, consumed) =>
            if consumed = rest.length then some (digitsVal [a, b, c, d], mo, dd)
            else none
        | none => none
      else none
  | _ => none

/-- Gregorian leap-year test, as datetime uses. -/
def isLeapYear (y : Nat) : Bool :=
  (y % 4 = 0 && !(y % 100 = 0)) || y % 400 = 0

/-- Number of days in a month. -/
def daysInMonth (y m : Nat) : Nat :=
  if m = 2 then (if isLeapYear y then 29 else 28)
  else if m = 4 ∨ m = 6 ∨ m = 9 ∨ m = 11 then 30
  else 31

/-- The datetime.datetime constructor's validation: year 1..9999, month
1..12, day within the month, hour at most 23, minute and second at most 59.
A violation raises ValueError, which strptime lets escape, so the format
attempt fails. -/
def mkDateTime (y mo d h mi s : Nat) : Option PyDateTime :=
  if 1 ≤ y ∧ y ≤ 9999 ∧ 1 ≤ mo ∧ mo ≤ 12 ∧ 1 ≤ d ∧ d ≤ daysInMonth y mo ∧
     h ≤ 23 ∧ mi ≤ 59 ∧ s ≤ 59 then
    some ⟨y, mo, d, h, mi, s⟩
  else none

/-- The seven format strings _smart_date_parse tries, in source order. -/
inductive Fmt where
  | fYmdHMS    -- "%Y/%m/%d %H:%M:%S"
  | fYmdSlash  -- "%Y/%m/%d"
  | fMdySlash  -- "%m/%d/%Y"
  | fYmdDash   -- "%Y-%m-%d"
  | fYmDash    -- "%Y-%m"
  | fYmdDot    -- "%Y.%m.%d"
  | fYmdCompact -- "%Y%m%d"
deriving Repr, DecidableEq

/-- The format list of _smart_date_parse. -/
def formats : List Fmt :=
  [.fYmdHMS, .fYmdSlash, .fMdySlash, .fYmdDash, .fYmDash, .fYmdDot, .fYmdCompact]

/-- datetime.datetime.strptime(s, fmt) for one of the listed formats:
regex-level match, then datetime construction.  Fields a format does not
set keep strptime's defaults (day 1, time 00:00:00). -/
def strptimeFmt (f : Fmt) (cs : List Char) : Option PyDateTime :=
  match f with
  | .fYmdHMS => (fmtFull cs).bind (fun r => mkDateTime r.1 r.2.1 r.2.2.1 r.2.2.2.1 r.2.2.2.2.1 r.2.2.2.2.2)
  | .fYmdSlash => (fmtYmdSep '/' cs).bind (fun r => mkDateTime r.1 r.2.1 r.2.2 0 0 0)
  | .fMdySlash => (fmtMdy cs).bind (fun r => mkDateTime r.1 r.2.1 r.2.2 0 0 0)
  | .fYmdDash => (fmtYmdSep '-' cs).bind (fun r => mkDateTime r.1 r.2.1 r.2.2 0 0 0)
  | .fYmDash => (fmtYm cs).bind (fun r => mkDateTime r.1 r.2 1 0 0 0)
  | .fYmdDot => (fmtYmdSep '.' cs).bind (fun r => mkDateTime r.1 r.2.1 r.2.2 0 0 0)
  | .fYmdCompact => (fmtYmdCompact cs).bind (fun r => mkDateTime r.1 r.2.1 r.2.2 0 0 0)

/-- The format-trying loop of _smart_date_parse: return the result of the
first format that parses. -/
def tryFormats : List Fmt → List Char → Option PyDateTime
  | [], _ => none
  | f :: rest, cs =>
      match strptimeFmt f cs with
      | some d => some d
      | none => tryFormats rest cs

/-- _smart_date_parse: None stays None, datetime/date values are returned
unchanged, anything else is stringified, stripped, rejected if empty, and
otherwise run through the format list. -/
def smart_date_parse : Value → Option PyDateTime
  | .vNone => none
  | .vDate d => some d
  | v =>
      let cs := pyStrip (pyStr v).data
      if cs = [] then none else tryFormats formats cs

/-! ## Name transliteration (get_english_name)

The function delegates to two external behaviours: Python's unicode
str.isalpha and pypinyin's phonetic transcription.  Both are passed in as
function arguments, so the theorems hold for any behaviour of the
libraries.  pypinyin returns one non-empty list of pronunciations per
input unit; x[0] is modelled with headD. -/

/-- str.capitalize() on an ASCII string: first character uppercased, the
rest lowercased (pinyin syllables are ASCII, where Python's title-casing
of the first character coincides with upper-casing). -/
def pyCapitalize (s : String) : String :=
  match s.data with
  | [] => ""
  | c :: rest => String.mk (c.toUpper :: rest.map Char.toLower)

/-- The guard all(ord(c) < 128 for c in name if c.isalpha()). -/
def asciiAlphaOnly (isalpha : Char → Bool) (name : String) : Bool :=
  name.data.all (fun c => !isalpha c || decide (c.toNat < 128))

/-- get_english_name, with the external library behaviours as parameters. -/
def get_english_name (isalpha : Char → Bool)
    (pinyin : String → List (List String)) (chinese_name : String) : String :=
  if asciiAlphaOnly isalpha chinese_name then chinese_name
  else if chinese_name.data.length < 2 then ""
  else
    let py_list := pinyin chinese_name
    if py_list = [] then ""
    else
      let surname := pyCapitalize ((py_list.headD []).headD "")
      let firstname :=
        pyCapitalize (String.join ((py_list.drop 1).map (fun x => x.headD "")))
      surname ++ ", " ++ firstname

/-! ## Row parsing (_parse_row_data) -/

/-- calendar.month_name as a sequence: index 0 is the empty string,
indices 1..12 the English month names.  The same names serve strftime %B. -/
def monthNames : List String :=
  ["", "January", "February", "March", "April", "May", "June", "July",
   "August", "September", "October", "November", "December"]

/-- The digit part of int(): a non-empty digit run in which single
underscores may appear between digits (CPython grammar for int literals
in strings).  Parsing is accumulated into the value. -/
def pyIntAux : Nat → List Char → Option Nat
  | acc, [] => some acc
  | acc, c :: rest =>
      if c.isDigit then pyIntAux (acc * 10 + digitVal c) rest
      else if c = '_' then
        match rest with
        | d :: rest2 =>
            if d.isDigit then pyIntAux (acc * 10 + digitVal d) rest2 else none
        | [] => none
      else none

/-- The digit part of int() must start with a digit. -/
def pyIntDigits : List Char → Option Nat
  | [] => none
  | c :: rest => if c.isDigit then pyIntAux (digitVal c) rest else none

/-- int(s): strip whitespace, optional sign, digits; a ValueError is none.
Non-ASCII digits are not modelled. -/
def pyInt (s : String) : Option Int :=
  match pyStrip s.data with
  | [] => none
  | c :: rest =>
      if c = '+' then (pyIntDigits rest).map Int.ofNat
      else if c = '-' then (pyIntDigits rest).map (fun n => -(n : Int))
      else (pyIntDigits (c :: rest)).map Int.ofNat

/-- str.split(sep) for a single-character separator. -/
def splitOnChar (sep : Char) : List Char → List (List Char)
  | [] => [[]]
  | c :: rest =>
      match splitOnChar sep rest with
      | [] => [[]]
      | p :: ps => if c = sep then [] :: p :: ps else (c :: p) :: ps

/-- calendar.month_name[int(p)] inside try/except: a ValueError from int()
or an IndexError from the sequence access yields "Unknown".  Note that
index 0 succeeds and yields the empty string. -/
def monthFromPart (p : String) : String :=
  match pyInt p with
  | none => "Unknown"
  | some n =>
      match pySeqGet monthNames n with
      | some s => s
      | none => "Unknown"

/-- The admission-date fallback of _parse_row_data, producing
(admit_year, admit_month, admit_month_en): splitting on "-" applies when
the raw value is a string containing "-"; otherwise all three fields are
"Unknown".  (When the string contains "-" the split has at least two
parts, so the "??" branch is dead; monthFromPart reads the second part,
an IndexError for a missing one being caught as "Unknown" -- modelled by
the empty default, on which int() also fails.) -/
def admFallback : Value → String × String × String
  | .vStr s =>
      if s.data.contains '-' then
        let parts := splitOnChar '-' s.data
        (String.mk (parts.headD []),
         if 1 < parts.length then String.mk (parts.getD 1 []) else "??",
         monthFromPart (String.mk (parts.getD 1 [])))
      else ("Unknown", "Unknown", "Unknown")
  | _ => ("Unknown", "Unknown", "Unknown")

/-- strftime("%Y年%m月%d日").  %m and %d are zero-padded; %Y is the plain
decimal year (platform-dependent padding below year 1000 is not modelled,
and every year this program parses has four digits). -/
def fmtDateZh (y m d : Nat) : String :=
  toString y ++ "年" ++ pad2 m ++ "月" ++ pad2 d ++ "日"

/-- strftime("%B %d, %Y") in the C/English locale. -/
def fmtDateEn (y m d : Nat) : String :=
  monthNames.getD m "" ++ " " ++ pad2 d ++ ", " ++ toString y

/-- The get_val closure of _parse_row_data: a missing key or -1 index, or
an index at least the row length, yields ""; a None cell yields ""; any
other cell is stringified and stripped.  The result is none only for the
IndexError of a negative index other than -1 reaching below -len(row),
which no matcher-produced mapping can cause. -/
def get_val (row : List Value) (idx_map : List (String × Int)) (key : String) :
    Option String :=
  let idx := dictGetD idx_map key (-1)
  if idx = -1 ∨ (row.length : Int) ≤ idx then some ""
  else
    match pySeqGet row idx with
    | none => none
    | some v => if v = Value.vNone then some "" else some (String.mk (pyStrip (pyStr v).data))

/-- The raw date-of-birth read:
row[idx_map.get("dob", -1)] if idx_map.get("dob", -1) != -1 else "".
Unlike get_val it has no bound check, so a row shorter than the column
index raises (none). -/
def dobRawOf (row : List Value) (idx_map : List (String × Int)) : Option Value :=
  let idx := dictGetD idx_map "dob" (-1)
  if idx = -1 then some (Value.vStr "") else pySeqGet row idx

/-- The raw admission-date read, with the same unguarded indexing. -/
def admRawOf (row : List Value) (idx_map : List (String × Int)) : Option Value :=
  let idx := dictGetD idx_map "admit_date" (-1)
  if idx = -1 then some (Value.vStr "") else pySeqGet row idx

/-- The gender translation block of _parse_row_data. -/
def genderEnOf (g : String) : String :=
  if containsSub "男" g then "Male"
  else if containsSub "女" g then "Female"
  else g

/-- The ID-type translation block of _parse_row_data. -/
def idTypeEnOf (t : String) : String :=
  if containsSub "身份证" t then "ID Card"
  else if containsSub "护照" t then "Passport"
  else "ID Document"

/-- One processed record, with the fields _parse_row_data fills. -/
structure Entry where
  name_zh : String
  gender_zh : String
  id_type_zh : String
  grade : String
  student_id : String
  id_number : String
  dob_zh : String
  dob_en : String
  admit_year : String
  admit_month : String
  admit_month_en : String
  date_zh : String
  date_en : String
  name_en : String
  gender_en : String
  id_type_en : String
deriving Repr, DecidableEq

/-- _parse_row_data.  today is datetime.date.today() as (year, month, day);
isalpha and pinyin are the external behaviours get_english_name uses.
A none result is an exception escaping (only the unguarded dob/admit reads
can raise for matcher-produced mappings). -/
def parse_row_data (isalpha : Char → Bool) (pinyin : String → List (List String))
    (today : Nat × Nat × Nat) (row : List Value) (idx_map : List (String × Int)) :
    Option Entry :=
  match get_val row idx_map "name_zh" with
  | none => none
  | some name_zh =>
  match get_val row idx_map "gender_zh" with
  | none => none
  | some gender_zh =>
  match get_val row idx_map "id_type_zh" with
  | none => none
  | some id_type_raw =>
  let id_type_zh := if id_type_raw = "" then "身份证" else id_type_raw
  match get_val row idx_map "grade" with
  | none => none
  | some grade =>
  match get_val row idx_map "student_id" with
  | none => none
  | some student_id =>
  match get_val row idx_map "id_number" with
  | none => none
  | some raw_id =>
  let id_number :=
    String.mk (pyStrip (raw_id.data.filter (fun c => !(c = '‘') && !(c = '’') && !(c = '\''))))
  match dobRawOf row idx_map with
  | none => none
  | some raw_dob =>
  let dobPair :=
    match smart_date_parse raw_dob with
    | some dt => (fmtDateZh dt.year dt.month dt.day, fmtDateEn dt.year dt.month dt.day)
    | none => (pyStr raw_dob, pyStr raw_dob)
  match admRawOf row idx_map with
  | none => none
  | some raw_adm =>
  let admTriple :=
    match smart_date_parse raw_adm with
    | some dt => (toString dt.year, toString dt.month, monthNames.getD dt.month "")
    | none => admFallback raw_adm
  some
    { name_zh := name_zh
      gender_zh := gender_zh
      id_type_zh := id_type_zh
      grade := grade
      student_id := student_id
      id_number := id_number
      dob_zh := dobPair.1
      dob_en := dobPair.2
      admit_year := admTriple.1
      admit_month := admTriple.2.1
      admit_month_en := admTriple.2.2
      date_zh := fmtDateZh today.1 today.2.1 today.2.2
      date_en := fmtDateEn today.1 today.2.1 today.2.2
      name_en := get_english_name isalpha pinyin name_zh
      gender_en := genderEnOf gender_zh
      id_type_en := idTypeEnOf id_type_zh }

/-! ## The spreadsheet loading loop (_process_excel_thread) -/

/-- The row loop of _process_excel_thread: a row whose cell in the
name_zh column is falsy is skipped; any other row is parsed and appended.
An exception anywhere (the name-cell access itself, or the row parse)
aborts the whole loop: none.  col_indices.get("name_zh") without a
default would be None for a missing key, and row[None] raises, hence the
none branch on a failed lookup. -/
def processRows (isalpha : Char → Bool) (pinyin : String → List (List String))
    (today : Nat × Nat × Nat) (idx_map : List (String × Int)) :
    List (List Value) → Option (List Entry)
  | [] => some []
  | row :: rest =>
      match lastAssoc idx_map "name_zh" with
      | none => none
      | some nameIdx =>
          match pySeqGet row nameIdx with
          | none => none
          | some v =>
              if v.truthy then
                match parse_row_data isalpha pinyin today row idx_map with
                | none => none
                | some e =>
                    match processRows isalpha pinyin today idx_map rest with
                    | none => none
                    | some es => some (e :: es)
              else processRows isalpha pinyin today idx_map rest

/-- Outcome of the whole load: the generic missing-columns dialog, the
exception dialog, or the list of loaded records. -/
inductive LoadResult where
  | missingColumns
  | loadError
  | ok (entries : List Entry)
deriving Repr, DecidableEq

/-- _process_excel_thread on a workbook given as header row plus data
rows: map columns; a None mapping aborts with the generic message
(the mapping, when present, always has all eight keys, so the Python
falsiness test on the dict coincides with the None test). -/
def process_excel (isalpha : Char → Bool) (pinyin : String → List (List String))
    (today : Nat × Nat × Nat) (headers : List Value) (rows : List (List Value)) :
    LoadResult :=
  match map_columns headers with
  | none => .missingColumns
  | some m =>
      match processRows isalpha pinyin today m rows with
      | none => .loadError
      | some es => .ok es

/-! ## Document generation (generate_docs) -/

/-- What one loop iteration of generate_docs emits: the progress value
posted to the UI and the filename the rendered document is saved under.
Progress is modelled in exact rational arithmetic. -/
structure GenStep where
  progress : ℚ
  filename : String
deriving Repr, DecidableEq

/-- A default step, for indexing with getD. -/
def defStep : GenStep := { progress := 0, filename := "" }

/-- The filename computed for one record:
str(context.get("student_id", "Unknown")) ++ "_" ++
str(context.get("name_zh", "Doc")).replace("/", "_") ++ ".docx".
Sheet values are strings, so str() is the identity. -/
def filenameFor (context : List (String × String)) : String :=
  let safe_name :=
    String.mk ((dictGetD context "name_zh" "Doc").data.map
      (fun c => if c = '/' then '_' else c))
  let safe_id := dictGetD context "student_id" "Unknown"
  safe_id ++ "_" ++ safe_name ++ ".docx"

/-- The enumerate loop of generate_docs, carrying the running index. -/
def genDocsAux (dataKeys : List String) (total : Nat) :
    Nat → List (List String) → List GenStep
  | _, [] => []
  | i, rv :: rest =>
      { progress := ((i : ℚ) + 1) / (total : ℚ),
        filename := filenameFor (dataKeys.zip rv) } ::
        genDocsAux dataKeys total (i + 1) rest

/-- generate_docs: one rendered document and one progress update per sheet
row; the context dict is rebuilt by zipping the stored headers with the
row values. -/
def generate_docs (dataKeys : List String) (rows : List (List String)) :
    List GenStep :=
  genDocsAux dataKeys rows.length 0 rows

/-! ## Concrete external behaviours used by witnesses

These are sample instantiations of the external-library parameters: an
isalpha covering ASCII letters and CJK ideographs, and a pinyin table for
the characters appearing in the concrete inputs. -/

/-- A sample isalpha: ASCII letters plus CJK ideographs. -/
def isalphaModel (c : Char) : Bool :=
  c.isAlpha || (0x4E00 ≤ c.toNat && c.toNat ≤ 0x9FFF)

/-- Pinyin of the sample characters. -/
def pinyinChar (c : Char) : String :=
  if c = '王' then "wang"
  else if c = '明' then "ming"
  else if c = '张' then "zhang"
  else if c = '三' then "san"
  else "x"

/-- A sample pinyin behaviour: one pronunciation per character. -/
def pinyinModel (s : String) : List (List String) :=
  s.data.map (fun c => [pinyinChar c])

/-! ## Helper lemmas -/

/-- findCol returns -1 exactly when no header contains a keyword. -/
theorem findCol_neg_one_iff (kws : List String) :
    ∀ (l : List String) (n : Nat),
      (findCol kws l n = -1 ↔ ∀ h ∈ l, kws.any (fun kw => containsSub kw h) = false)
  | [], n => by simp [findCol]
  | h :: t, n => by
      by_cases hp : kws.any (fun kw => containsSub kw h) = true
      · rw [findCol, if_pos hp]
        constructor
        · intro hn; omega
        · intro hall
          exact absurd (hall h (List.mem_cons_self h t)) (by simp [hp])
      · rw [findCol, if_neg hp, findCol_neg_one_iff kws t (n + 1)]
        constructor
        · intro hall h' hh'
          rcases List.mem_cons.mp hh' with rfl | hmem
          · exact Bool.eq_false_iff.mpr hp
          · exact hall h' hmem
        · intro hall h' hh'
          exact hall h' (List.mem_cons_of_mem h hh')

/-- findCol is either -1 or a natural index. -/
theorem findCol_cases (kws : List String) :
    ∀ (l : List String) (n : Nat),
      findCol kws l n = -1 ∨ ∃ i : Nat, findCol kws l n = (i : Int)
  | [], n => Or.inl rfl
  | h :: t, n => by
      by_cases hp : kws.any (fun kw => containsSub kw h) = true
      · exact Or.inr ⟨n, by rw [findCol, if_pos hp]⟩
      · rw [findCol, if_neg hp]
        exact findCol_cases kws t (n + 1)

/-- When findCol returns a natural index, that index is the first header
(from the start offset) containing a keyword. -/
theorem findCol_spec (kws : List String) :
    ∀ (l : List String) (n i : Nat), findCol kws l n = (i : Int) →
      n ≤ i ∧ i - n < l.length ∧
      kws.any (fun kw => containsSub kw (l.getD (i - n) "")) = true ∧
      ∀ j, j < i - n → kws.any (fun kw => containsSub kw (l.getD j "")) = false
  | [], n, i => by intro h; exact absurd h (by simp [findCol])
  | h :: t, n, i => by
      intro hcol
      by_cases hp : kws.any (fun kw => containsSub kw h) = true
      · rw [findCol, if_pos hp] at hcol
        have hni : n = i := by omega
        subst hni
        simp only [Nat.sub_self]
        exact ⟨le_refl n, by simp, by simpa using hp, fun j hj => absurd hj (by omega)⟩
      · rw [findCol, if_neg hp] at hcol
        obtain ⟨h1, h2, h3, h4⟩ := findCol_spec kws t (n + 1) i hcol
        have hin : 1 ≤ i - n := by omega
        have hsub : i - n - 1 = i - (n + 1) := by omega
        refine ⟨by omega, by simp; omega, ?_, ?_⟩
        · have : (h :: t).getD (i - n) "" = t.getD (i - n - 1) "" := by
            rcases Nat.exists_eq_add_of_le hin with ⟨k, hk⟩
            rw [hk]; simp [Nat.add_comm]
          rw [this, hsub]; exact h3
        · intro j hj
          cases j with
          | zero => simpa using Bool.eq_false_iff.mpr hp
          | succ j' =>
              have : (h :: t).getD (j' + 1) "" = t.getD j' "" := by simp
              rw [this]
              exact h4 j' (by omega)

/-- C1: for every list of header strings, the column matcher assigns each
record field the index of the first header (scanning left to right) whose
string contains one of that field's keywords as a substring, and assigns
-1 exactly when no header contains any of the field's keywords. -/
theorem map_columns_first_match (headers : List Value) (key : String)
    (kws : List String) (hmem : (key, kws) ∈ keywordTable) (i : Nat) :
    lastAssoc (buildMapping headers) key =
      some (findCol kws (headersStrs headers) 0) ∧
    (findCol kws (headersStrs headers) 0 = -1 ↔
      ∀ h ∈ headersStrs headers, ∀ kw ∈ kws, containsSub kw h = false) ∧
    (findCol kws (headersStrs headers) 0 = (i : Int) →
      i < headers.length ∧
      (∃ kw ∈ kws, containsSub kw ((headersStrs headers).getD i "") = true) ∧
      ∀ j, j < i → ∀ kw ∈ kws, containsSub kw ((headersStrs headers).getD j "") = false) := by
  have hlen : (headersStrs headers).length = headers.length := by
    simp [headersStrs]
  refine ⟨?_, ?_, ?_⟩
  · simp only [keywordTable, List.mem_cons, List.not_mem_nil, or_false] at hmem
    rcases hmem with h | h | h | h | h | h | h | h <;>
      (obtain ⟨rfl, rfl⟩ := Prod.mk.injEq .. ▸ h; rfl)
  · rw [findCol_neg_one_iff]
    constructor
    · intro hall h hh kw hkw
      have := hall h hh
      rw [List.any_eq_false] at this
      simpa using this kw hkw
    · intro hall h hh
      rw [List.any_eq_false]
      intro kw hkw
      simp [hall h hh kw hkw]
  · intro hcol
    obtain ⟨-, h2, h3, h4⟩ := findCol_spec kws (headersStrs headers) 0 i hcol
    simp only [Nat.sub_zero] at h2 h3 h4
    refine ⟨by omega, ?_, ?_⟩
    · rw [List.any_eq_true] at h3
      simpa using h3
    · intro j hj kw hkw
      have := h4 j hj
      rw [List.any_eq_false] at this
      simpa using this kw hkw

/-- Witness for C1 at a concrete header row: the header list
["x", "学生姓名"] maps name_zh to index 1, which is below the length. -/
theorem map_columns_first_match_witness :
    lastAssoc (buildMapping [Value.vStr "x", Value.vStr "学生姓名"]) "name_zh" = some 1 ∧
    1 < ([Value.vStr "x", Value.vStr "学生姓名"] : List Value).length :=
  ⟨(map_columns_first_match [Value.vStr "x", Value.vStr "学生姓名"] "name_zh"
      ["姓名", "legal name", "Name"] (by decide) 1).1,
   ((map_columns_first_match [Value.vStr "x", Value.vStr "学生姓名"] "name_zh"
      ["姓名", "legal name", "Name"] (by decide) 1).2.2 rfl).1⟩

/-- The format loop returns the head of the successful parses, in format
order. -/
theorem tryFormats_eq_head (l : List Fmt) (cs : List Char) :
    tryFormats l cs = (l.filterMap (fun f => strptimeFmt f cs)).head? := by
  induction l with
  | nil => rfl
  | cons f rest ih =>
      rw [tryFormats, List.filterMap_cons]
      cases h : strptimeFmt f cs with
      | none => simpa using ih
      | some d => simp

/-- C2: a string input is stripped and run through the fixed ordered
format list; the result is the date parsed by the first format that
succeeds, and for a non-empty string the parse returns no date exactly
when every listed format fails on it. -/
theorem smart_date_parse_tries_formats (s : String) (hne : s ≠ "") :
    smart_date_parse (Value.vStr s) =
      (formats.filterMap (fun f => strptimeFmt f (pyStrip s.data))).head? ∧
    (smart_date_parse (Value.vStr s) = none ↔
      ∀ f ∈ formats, strptimeFmt f (pyStrip s.data) = none) := by
  have hmain : smart_date_parse (Value.vStr s) =
      (formats.filterMap (fun f => strptimeFmt f (pyStrip s.data))).head? := by
    have hdef : smart_date_parse (Value.vStr s) =
        if pyStrip s.data = [] then none
        else tryFormats formats (pyStrip s.data) := rfl
    rw [hdef]
    by_cases he : pyStrip s.data = []
    · rw [if_pos he, he]
      decide
    · rw [if_neg he, tryFormats_eq_head]
  refine ⟨hmain, ?_⟩
  rw [hmain]
  rw [List.head?_eq_none_iff, List.filterMap_eq_nil_iff]

/-- Witness for C2: the first-success equation at "2024-08", plus sample
evaluations showing every listed format accepted and malformed strings
rejected. -/
theorem smart_date_parse_tries_formats_witness :
    ("2024-08" : String) ≠ "" ∧
    smart_date_parse (Value.vStr "2024-08") =
      (formats.filterMap (fun f => strptimeFmt f (pyStrip "2024-08".data))).head? ∧
    smart_date_parse (Value.vStr "2024-08") = some ⟨2024, 8, 1, 0, 0, 0⟩ ∧
    smart_date_parse (Value.vStr "2024/01/02 03:04:05") = some ⟨2024, 1, 2, 3, 4, 5⟩ ∧
    smart_date_parse (Value.vStr "2024/1/2") = some ⟨2024, 1, 2, 0, 0, 0⟩ ∧
    smart_date_parse (Value.vStr "1/2/2024") = some ⟨2024, 1, 2, 0, 0, 0⟩ ∧
    smart_date_parse (Value.vStr "2024-1-2") = some ⟨2024, 1, 2, 0, 0, 0⟩ ∧
    smart_date_parse (Value.vStr "2024.1.2") = some ⟨2024, 1, 2, 0, 0, 0⟩ ∧
    smart_date_parse (Value.vStr "20240229") = some ⟨2024, 2, 29, 0, 0, 0⟩ ∧
    smart_date_parse (Value.vStr "2024/02/30") = none ∧
    smart_date_parse (Value.vStr "2024-13") = none ∧
    smart_date_parse (Value.vStr "hello") = none :=
  ⟨by decide, (smart_date_parse_tries_formats "2024-08" (by decide)).1,
   by decide, by decide, by decide, by decide, by decide, by decide, by decide,
   by decide, by decide, by decide⟩

/-- C3: an input whose alphabetic characters are all ASCII passes through
unchanged; any other input of length at least 2 is transliterated to
"Surname, Firstname" with the capitalized first phonetic syllable as
surname and the capitalized concatenation of the remaining syllables as
first name (pypinyin returns a non-empty pronunciation list for a
non-empty input, given here as the hypothesis on its result). -/
theorem get_english_name_spec (isalpha : Char → Bool)
    (pinyin : String → List (List String)) (name y0 : String)
    (ys : List String) (rest : List (List String)) :
    (asciiAlphaOnly isalpha name = true →
      get_english_name isalpha pinyin name = name) ∧
    (asciiAlphaOnly isalpha name = false → 2 ≤ name.data.length →
      pinyin name = (y0 :: ys) :: rest →
      get_english_name isalpha pinyin name =
        pyCapitalize y0 ++ ", " ++
          pyCapitalize (String.join (rest.map (fun x => x.headD "")))) := by
  constructor
  · intro h
    rw [get_english_name, if_pos h]
  · intro h hlen hpy
    rw [get_english_name, if_neg (by simp [h]), if_neg (by omega)]
    simp [hpy]

/-- Witness for C3: the Latin name "Kenneth" passes through; the two-
character name with pronunciations [["wang"], ["ming"]] becomes
"Wang, Ming". -/
theorem get_english_name_spec_witness :
    get_english_name isalphaModel pinyinModel "Kenneth" = "Kenneth" ∧
    get_english_name isalphaModel pinyinModel "王明" = "Wang, Ming" :=
  ⟨(get_english_name_spec isalphaModel pinyinModel "Kenneth" "" [] []).1 (by decide),
   ((get_english_name_spec isalphaModel pinyinModel "王明" "wang" [] [["ming"]]).2
      (by decide) (by decide) (by decide)).trans (by decide)⟩

/-- A successful dict lookup comes from a binding in the list. -/
theorem lastAssoc_mem {α : Type} (l : List (String × α)) (key : String) (v : α)
    (h : lastAssoc l key = some v) : (key, v) ∈ l := by
  induction l with
  | nil => simp [lastAssoc] at h
  | cons kv rest ih =>
      obtain ⟨k, w⟩ := kv
      unfold lastAssoc at h
      cases hr : lastAssoc rest key with
      | some u =>
          rw [hr] at h
          cases h
          exact List.mem_cons_of_mem _ (ih hr)
      | none =>
          rw [hr] at h
          by_cases hk : k = key
          · rw [if_pos hk] at h
            cases h
            subst hk
            exact List.mem_cons_self _ _
          · rw [if_neg hk] at h
            exact absurd h (by simp)

/-- Inversion of a successful map_columns. -/
theorem map_columns_some (headers : List Value) (m : List (String × Int))
    (h : map_columns headers = some m) :
    m = buildMapping headers ∧
    ¬ dictGetD (buildMapping headers) "name_zh" (-1) = -1 := by
  unfold map_columns at h
  split at h
  · exact absurd h (by simp)
  · next hc => exact ⟨(Option.some.inj h).symm, hc⟩

/-- Every index the matcher stores is -1 or a valid header position. -/
theorem mapping_value_cases (headers : List Value) (key : String) (v : Int)
    (h : lastAssoc (buildMapping headers) key = some v) :
    v = -1 ∨ (0 ≤ v ∧ v < (headers.length : Int)) := by
  have hmem := lastAssoc_mem _ _ _ h
  rw [buildMapping, List.mem_map] at hmem
  obtain ⟨kv, -, heq⟩ := hmem
  have hv : v = findCol kv.2 (headersStrs headers) 0 := by
    have := congrArg Prod.snd heq
    simpa using this.symm
  rcases findCol_cases kv.2 (headersStrs headers) 0 with hc | ⟨i, hc⟩
  · left; rw [hv, hc]
  · right
    obtain ⟨-, hlt, -, -⟩ := findCol_spec kv.2 (headersStrs headers) 0 i hc
    have hlen : (headersStrs headers).length = headers.length := by simp [headersStrs]
    simp only [Nat.sub_zero] at hlt
    rw [hv, hc]
    omega

/-- In-range Python indexing succeeds. -/
theorem pySeqGet_isSome {α : Type} (l : List α) (i : Int) (h0 : 0 ≤ i)
    (hl : i < (l.length : Int)) : (pySeqGet l i).isSome := by
  have hni : ¬ i < 0 := by omega
  simp only [pySeqGet, hni, if_false]
  rw [if_pos ⟨h0, hl⟩]
  have hlt : i.toNat < l.length := by omega
  rw [List.get?_eq_get hlt]
  rfl

/-- get_val never raises for a matcher-produced mapping, whatever the row. -/
theorem get_val_isSome (headers row : List Value) (m : List (String × Int))
    (key : String) (hm : map_columns headers = some m) :
    (get_val row m key).isSome := by
  obtain ⟨rfl, -⟩ := map_columns_some headers m hm
  unfold get_val
  by_cases h1 : dictGetD (buildMapping headers) key (-1) = -1 ∨
      (row.length : Int) ≤ dictGetD (buildMapping headers) key (-1)
  · rw [if_pos h1]; rfl
  · rw [if_neg h1]
    push_neg at h1
    obtain ⟨hne, hlt⟩ := h1
    have h0 : 0 ≤ dictGetD (buildMapping headers) key (-1) := by
      unfold dictGetD at hne ⊢
      cases hc : lastAssoc (buildMapping headers) key with
      | none => rw [hc] at hne; simp at hne
      | some v =>
          simp only [Option.getD_some]
          rcases mapping_value_cases headers key v hc with rfl | ⟨hv0, -⟩
          · rw [hc] at hne; simp at hne
          · exact hv0
    obtain ⟨v, hv⟩ := Option.isSome_iff_exists.mp (pySeqGet_isSome row _ h0 hlt)
    simp only [hv]
    split <;> rfl

/-- The raw dob read succeeds when the row has the header row's length. -/
theorem dobRawOf_isSome (headers row : List Value) (m : List (String × Int))
    (hm : map_columns headers = some m) (hlen : row.length = headers.length) :
    (dobRawOf row m).isSome := by
  obtain ⟨rfl, -⟩ := map_columns_some headers m hm
  unfold dobRawOf
  by_cases h1 : dictGetD (buildMapping headers) "dob" (-1) = -1
  · rw [if_pos h1]; rfl
  · rw [if_neg h1]
    unfold dictGetD at h1 ⊢
    cases hc : lastAssoc (buildMapping headers) "dob" with
    | none => rw [hc] at h1; simp at h1
    | some v =>
        simp only [Option.getD_some]
        rcases mapping_value_cases headers "dob" v hc with rfl | ⟨hv0, hvl⟩
        · rw [hc] at h1; simp at h1
        · exact pySeqGet_isSome row v hv0 (by omega)

/-- The raw admission-date read succeeds under the same condition. -/
theorem admRawOf_isSome (headers row : List Value) (m : List (String × Int))
    (hm : map_columns headers = some m) (hlen : row.length = headers.length) :
    (admRawOf row m).isSome := by
  obtain ⟨rfl, -⟩ := map_columns_some headers m hm
  unfold admRawOf
  by_cases h1 : dictGetD (buildMapping headers) "admit_date" (-1) = -1
  · rw [if_pos h1]; rfl
  · rw [if_neg h1]
    unfold dictGetD at h1 ⊢
    cases hc : lastAssoc (buildMapping headers) "admit_date" with
    | none => rw [hc] at h1; simp at h1
    | some v =>
        simp only [Option.getD_some]
        rcases mapping_value_cases headers "admit_date" v hc with rfl | ⟨hv0, hvl⟩
        · rw [hc] at h1; simp at h1
        · exact pySeqGet_isSome row v hv0 (by omega)

/-- Row parsing is total for rows of the header row's length. -/
theorem parse_row_data_isSome (isalpha : Char → Bool)
    (pinyin : String → List (List String)) (today : Nat × Nat × Nat)
    (headers row : List Value) (m : List (String × Int))
    (hm : map_columns headers = some m) (hlen : row.length = headers.length) :
    (parse_row_data isalpha pinyin today row m).isSome := by
  obtain ⟨v1, h1⟩ := Option.isSome_iff_exists.mp (get_val_isSome headers row m "name_zh" hm)
  obtain ⟨v2, h2⟩ := Option.isSome_iff_exists.mp (get_val_isSome headers row m "gender_zh" hm)
  obtain ⟨v3, h3⟩ := Option.isSome_iff_exists.mp (get_val_isSome headers row m "id_type_zh" hm)
  obtain ⟨v4, h4⟩ := Option.isSome_iff_exists.mp (get_val_isSome headers row m "grade" hm)
  obtain ⟨v5, h5⟩ := Option.isSome_iff_exists.mp (get_val_isSome headers row m "student_id" hm)
  obtain ⟨v6, h6⟩ := Option.isSome_iff_exists.mp (get_val_isSome headers row m "id_number" hm)
  obtain ⟨v7, h7⟩ := Option.isSome_iff_exists.mp (dobRawOf_isSome headers row m hm hlen)
  obtain ⟨v8, h8⟩ := Option.isSome_iff_exists.mp (admRawOf_isSome headers row m hm hlen)
  unfold parse_row_data
  rw [h1, h2, h3, h4, h5, h6, h7, h8]
  rfl

/-! ## Concrete column maps used in witnesses and counterexamples -/

/-- The mapping the matcher produces for the single header "姓名". -/
def colMapNameOnly : List (String × Int) :=
  [("name_zh", 0), ("gender_zh", -1), ("id_type_zh", -1), ("id_number", -1),
   ("dob", -1), ("admit_date", -1), ("student_id", -1), ("grade", -1)]

/-- The mapping for the headers ["姓名", "出生日期"]. -/
def colMapNameDob : List (String × Int) :=
  [("name_zh", 0), ("gender_zh", -1), ("id_type_zh", -1), ("id_number", -1),
   ("dob", 1), ("admit_date", -1), ("student_id", -1), ("grade", -1)]

/-- The mapping for the headers ["姓名", "入学年份"]. -/
def colMapNameAdm : List (String × Int) :=
  [("name_zh", 0), ("gender_zh", -1), ("id_type_zh", -1), ("id_number", -1),
   ("dob", -1), ("admit_date", 1), ("student_id", -1), ("grade", -1)]

/-- The mapping for the headers ["姓名", "性别"]. -/
def colMapNameGender : List (String × Int) :=
  [("name_zh", 0), ("gender_zh", 1), ("id_type_zh", -1), ("id_number", -1),
   ("dob", -1), ("admit_date", -1), ("student_id", -1), ("grade", -1)]

/-- C9 counterexample: with the dob column matched at index 1, a data row
of length 1 makes the raw date-of-birth read (which, unlike get_val, has
no bound check) access a position past the end of the row, and the whole
row parse raises instead of being total. -/
theorem parse_row_short_row_none :
    map_columns [Value.vStr "姓名", Value.vStr "出生日期"] = some colMapNameDob ∧
    dobRawOf [Value.vStr "张"] colMapNameDob = none ∧
    parse_row_data isalphaModel pinyinModel (2025, 10, 12) [Value.vStr "张"]
      colMapNameDob = none :=
  ⟨by decide, by decide, by decide⟩

/-- C9 (amended): for a matcher-produced column mapping, get_val is total
on every data row and yields "" whenever the field's index is -1 or not
below the row length; the raw dob/admit reads are guarded only against
-1, so whole-row parsing is total when the data row has the header row's
length (which the spreadsheet reader guarantees), but not for shorter
rows. -/
theorem get_val_total_parse_total (isalpha : Char → Bool)
    (pinyin : String → List (List String)) (today : Nat × Nat × Nat)
    (headers row : List Value) (m : List (String × Int)) (key : String)
    (hm : map_columns headers = some m) :
    (get_val row m key).isSome ∧
    (dictGetD m key (-1) = -1 ∨ (row.length : Int) ≤ dictGetD m key (-1) →
      get_val row m key = some "") ∧
    (row.length = headers.length →
      (parse_row_data isalpha pinyin today row m).isSome) := by
  refine ⟨get_val_isSome headers row m key hm, ?_, fun hlen =>
    parse_row_data_isSome isalpha pinyin today headers row m hm hlen⟩
  intro h1
  simp only [get_val]
  rw [if_pos h1]

/-- Witness for C9 at the header "姓名" and data row ["张三"]: the dob
field has index -1, get_val yields "", and the parse is total. -/
theorem get_val_total_parse_total_witness :
    (get_val [Value.vStr "张三"] colMapNameOnly "dob").isSome ∧
    get_val [Value.vStr "张三"] colMapNameOnly "dob" = some "" ∧
    (parse_row_data isalphaModel pinyinModel (2025, 10, 12) [Value.vStr "张三"]
      colMapNameOnly).isSome :=
  ⟨(get_val_total_parse_total isalphaModel pinyinModel (2025, 10, 12)
      [Value.vStr "姓名"] [Value.vStr "张三"] colMapNameOnly "dob" (by decide)).1,
   (get_val_total_parse_total isalphaModel pinyinModel (2025, 10, 12)
      [Value.vStr "姓名"] [Value.vStr "张三"] colMapNameOnly "dob" (by decide)).2.1
      (Or.inl (by decide)),
   (get_val_total_parse_total isalphaModel pinyinModel (2025, 10, 12)
      [Value.vStr "姓名"] [Value.vStr "张三"] colMapNameOnly "dob" (by decide)).2.2
      (by decide)⟩

/-- C4 counterexample: at gen.py lines 203-205 the loop tests the name
cell with Python truthiness (if not row[name_idx]), not emptiness.  For
the header "姓名" (name column at index 0) and the single data row whose
name cell is the integer 0, the cell is neither None nor the empty
string -- a non-empty value -- yet 0 is falsy, so the row is skipped and
the load yields no record, refuting included-iff-non-empty as stated. -/
theorem process_rows_zero_cell_excluded :
    map_columns [Value.vStr "姓名"] = some colMapNameOnly ∧
    ¬ Value.vInt 0 = Value.vNone ∧
    ¬ Value.vInt 0 = Value.vStr "" ∧
    processRows isalphaModel pinyinModel (2025, 10, 12) colMapNameOnly
      [[Value.vInt 0]] = some [] :=
  ⟨by decide, by decide, by decide, by decide⟩

/-- The row loop keeps exactly the rows with a truthy name cell, given
the name-column facts. -/
theorem processRows_filter_aux (isalpha : Char → Bool)
    (pinyin : String → List (List String)) (today : Nat × Nat × Nat)
    (headers : List Value) (m : List (String × Int)) (nIdx : Int)
    (hm : map_columns headers = some m)
    (hnIdx : lastAssoc m "name_zh" = some nIdx)
    (h0 : 0 ≤ nIdx) (hlt : nIdx < (headers.length : Int)) :
    ∀ rows : List (List Value), (∀ r ∈ rows, r.length = headers.length) →
      processRows isalpha pinyin today m rows =
        some ((rows.filter (fun r =>
            ((pySeqGet r (dictGetD m "name_zh" (-1))).getD Value.vNone).truthy)).filterMap
          (fun r => parse_row_data isalpha pinyin today r m))
  | [] => by intro _; simp [processRows]
  | r :: rest => by
      intro hrect
      have hr : r.length = headers.length := hrect r (List.mem_cons_self r rest)
      have hrest : ∀ x ∈ rest, x.length = headers.length :=
        fun x hx => hrect x (List.mem_cons_of_mem r hx)
      obtain ⟨v, hv⟩ := Option.isSome_iff_exists.mp
        (pySeqGet_isSome r nIdx h0 (by omega))
      have hcond : ((pySeqGet r (dictGetD m "name_zh" (-1))).getD Value.vNone).truthy
          = v.truthy := by
        simp [dictGetD, hnIdx, hv]
      have hrec := processRows_filter_aux isalpha pinyin today headers m nIdx
        hm hnIdx h0 hlt rest hrest
      rw [processRows]
      simp only [hnIdx, hv]
      rw [List.filter_cons]
      by_cases ht : v.truthy = true
      · rw [if_pos ht]
        obtain ⟨e, he⟩ := Option.isSome_iff_exists.mp
          (parse_row_data_isSome isalpha pinyin today headers r m hm hr)
        rw [he, hrec]
        rw [if_pos (by rw [hcond]; exact ht)]
        rw [List.filterMap_cons]
        simp [he]
      · rw [if_neg ht, hrec]
        rw [if_neg (by rw [hcond]; exact ht)]

/-- C4 (amended): with a matcher-produced mapping and data rows of the
header row's length (openpyxl pads iter_rows to the sheet width), a row
is converted into a record and included exactly when its cell in the
matched name column is truthy: non-None, not the empty string, and, for
a numeric cell, non-zero.  Under these hypotheses every row parse
succeeds, so the filterMap below keeps one record per truthy-name row in
order.  (The claim's plain "non-empty" fails on a numeric 0 cell, see
the counterexample.) -/
theorem process_rows_truthy_name_filter (isalpha : Char → Bool)
    (pinyin : String → List (List String)) (today : Nat × Nat × Nat)
    (headers : List Value) (m : List (String × Int)) (rows : List (List Value))
    (hm : map_columns headers = some m)
    (hrect : ∀ r ∈ rows, r.length = headers.length) :
    processRows isalpha pinyin today m rows =
      some ((rows.filter (fun r =>
          ((pySeqGet r (dictGetD m "name_zh" (-1))).getD Value.vNone).truthy)).filterMap
        (fun r => parse_row_data isalpha pinyin today r m)) := by
  obtain ⟨hmb, hne⟩ := map_columns_some headers m hm
  obtain ⟨nIdx, hnIdx⟩ : ∃ v, lastAssoc m "name_zh" = some v := by
    subst hmb
    cases hc : lastAssoc (buildMapping headers) "name_zh" with
    | none => exact absurd (by unfold dictGetD; rw [hc]; rfl) hne
    | some v => exact ⟨v, rfl⟩
  have hb : 0 ≤ nIdx ∧ nIdx < (headers.length : Int) := by
    have h2 : lastAssoc (buildMapping headers) "name_zh" = some nIdx := by
      rw [← hmb]; exact hnIdx
    rcases mapping_value_cases headers "name_zh" nIdx h2 with rfl | hb
    · exact absurd (by unfold dictGetD; rw [h2]; rfl) hne
    · exact hb
  exact processRows_filter_aux isalpha pinyin today headers m nIdx hm hnIdx
    hb.1 hb.2 rows hrect

/-- Witness for C4: loading the rows [["张三"], [""]] under the header
"姓名" keeps exactly the truthy-name row. -/
theorem process_rows_truthy_name_filter_witness :
    processRows isalphaModel pinyinModel (2025, 10, 12) colMapNameOnly
      [[Value.vStr "张三"], [Value.vStr ""]] =
      some (((([[Value.vStr "张三"], [Value.vStr ""]] : List (List Value)).filter
          (fun r =>
            ((pySeqGet r (dictGetD colMapNameOnly "name_zh" (-1))).getD
              Value.vNone).truthy)).filterMap
        (fun r => parse_row_data isalphaModel pinyinModel (2025, 10, 12) r
          colMapNameOnly))) :=
  process_rows_truthy_name_filter isalphaModel pinyinModel (2025, 10, 12)
    [Value.vStr "姓名"] colMapNameOnly [[Value.vStr "张三"], [Value.vStr ""]]
    (by decide) (by decide)

/-- The record loaded for the row ["张三"] under the single header "姓名". -/
def entryZhangSanNameOnly : Entry :=
  { name_zh := "张三"
    gender_zh := ""
    id_type_zh := "身份证"
    grade := ""
    student_id := ""
    id_number := ""
    dob_zh := ""
    dob_en := ""
    admit_year := "Unknown"
    admit_month := "Unknown"
    admit_month_en := "Unknown"
    date_zh := "2025年10月12日"
    date_en := "October 12, 2025"
    name_en := "Zhang, San"
    gender_en := ""
    id_type_en := "ID Card" }

/-- C5 counterexample: the only required column is the name column.  A
header row with a name column but no ID-number column (its index is -1)
does not abort the load: it produces a record. -/
theorem missing_id_column_not_abort :
    map_columns [Value.vStr "姓名"] = some colMapNameOnly ∧
    dictGetD colMapNameOnly "id_number" (-1) = -1 ∧
    process_excel isalphaModel pinyinModel (2025, 10, 12) [Value.vStr "姓名"]
      [[Value.vStr "张三"]] = LoadResult.ok [entryZhangSanNameOnly] :=
  ⟨by decide, by decide, by decide⟩

/-- C5 (amended): the load aborts with the single generic message, and
produces no records, exactly when no header contains a name keyword; a
missing column other than the name column (including the ID-number
column) maps to index -1 and does not abort the load. -/
theorem only_name_column_required (isalpha : Char → Bool)
    (pinyin : String → List (List String)) (today : Nat × Nat × Nat)
    (headers : List Value) (rows : List (List Value)) :
    (map_columns headers = none ↔
      ∀ h ∈ headersStrs headers, ∀ kw ∈ (["姓名", "legal name", "Name"] : List String),
        containsSub kw h = false) ∧
    (map_columns headers = none →
      process_excel isalpha pinyin today headers rows = LoadResult.missingColumns) := by
  constructor
  · have hiff := findCol_neg_one_iff ["姓名", "legal name", "Name"]
      (headersStrs headers) 0
    have hdg : dictGetD (buildMapping headers) "name_zh" (-1) =
        findCol ["姓名", "legal name", "Name"] (headersStrs headers) 0 := rfl
    constructor
    · intro hnone h hh kw hkw
      have hcol : dictGetD (buildMapping headers) "name_zh" (-1) = -1 := by
        by_contra hc
        rw [map_columns, if_neg hc] at hnone
        exact absurd hnone (by simp)
      rw [hdg] at hcol
      have := hiff.mp hcol h hh
      rw [List.any_eq_false] at this
      simpa using this kw hkw
    · intro hall
      have hcol : findCol ["姓名", "legal name", "Name"] (headersStrs headers) 0 = -1 := by
        rw [hiff]
        intro h hh
        rw [List.any_eq_false]
        intro kw hkw
        simp [hall h hh kw hkw]
      rw [map_columns, if_pos (hdg.trans hcol)]
  · intro hnone
    rw [process_excel, hnone]

/-- Witness for C5: a header row with no name keyword anywhere aborts the
load with the generic missing-columns outcome. -/
theorem only_name_column_required_witness :
    map_columns [Value.vStr "x"] = none ∧
    process_excel isalphaModel pinyinModel (2025, 10, 12) [Value.vStr "x"]
      [[Value.vStr "张三"]] = LoadResult.missingColumns :=
  ⟨by decide,
   (only_name_column_required isalphaModel pinyinModel (2025, 10, 12)
      [Value.vStr "x"] [[Value.vStr "张三"]]).2 (by decide)⟩

/-- The generation loop emits one step per row. -/
theorem genDocsAux_length (dataKeys : List String) (total : Nat) :
    ∀ (i : Nat) (rows : List (List String)),
      (genDocsAux dataKeys total i rows).length = rows.length
  | _, [] => rfl
  | i, rv :: rest => by
      rw [genDocsAux]
      simp [genDocsAux_length dataKeys total (i + 1) rest]

/-- The step at position j of the loop started at index i. -/
theorem genDocsAux_getD (dataKeys : List String) (total : Nat) :
    ∀ (rows : List (List String)) (i j : Nat), j < rows.length →
      (genDocsAux dataKeys total i rows).getD j defStep =
        { progress := ((i : ℚ) + (j : ℚ) + 1) / (total : ℚ),
          filename := filenameFor (dataKeys.zip (rows.getD j [])) }
  | [], i, j => by intro h; simp at h
  | rv :: rest, i, 0 => by
      intro h
      rw [genDocsAux]
      norm_num
  | rv :: rest, i, j + 1 => by
      intro h
      rw [genDocsAux]
      have hj : j < rest.length := by simpa using Nat.lt_of_succ_lt_succ h
      rw [List.getD_cons_succ, List.getD_cons_succ,
        genDocsAux_getD dataKeys total rest (i + 1) j hj]
      simp only [GenStep.mk.injEq]
      constructor
      · push_cast
        ring_nf
      · trivial

/-- C6: one output document is written per record, and its filename is
the student identifier, an underscore, the name with every "/" replaced
by "_", and the ".docx" extension; a context without the student_id or
name_zh key falls back to "Unknown" and "Doc". -/
theorem generate_docs_filenames (dataKeys : List String) (rows : List (List String))
    (i : Nat) (hi : i < rows.length) :
    (generate_docs dataKeys rows).length = rows.length ∧
    ((generate_docs dataKeys rows).getD i defStep).filename =
      dictGetD (dataKeys.zip (rows.getD i [])) "student_id" "Unknown" ++ "_" ++
        String.mk ((dictGetD (dataKeys.zip (rows.getD i [])) "name_zh" "Doc").data.map
          (fun c => if c = '/' then '_' else c)) ++ ".docx" := by
  refine ⟨genDocsAux_length dataKeys rows.length 0 rows, ?_⟩
  rw [generate_docs, genDocsAux_getD dataKeys rows.length rows 0 i hi]
  rfl

/-- Witness for C6: keys [student_id, name_zh] and the single row
["S1", "a/b"] produce one file named "S1_a_b.docx". -/
theorem generate_docs_filenames_witness :
    (generate_docs ["student_id", "name_zh"] [["S1", "a/b"]]).length = 1 ∧
    ((generate_docs ["student_id", "name_zh"] [["S1", "a/b"]]).getD 0 defStep).filename
      = "S1_a_b.docx" := by
  have h := generate_docs_filenames ["student_id", "name_zh"] [["S1", "a/b"]] 0
    (by decide)
  exact ⟨h.1, h.2.trans (by decide)⟩

/-- C8: in every run over n > 0 records, the progress posted while
starting the record at zero-based index i is (i+1)/n; it is strictly
increasing across the run, and equals exactly 1 at the final record.
Each conjunct carries only the bound it needs, so all three apply to a
single-record run as well. -/
theorem generate_docs_progress (dataKeys : List String) (rows : List (List String))
    (i j : Nat) :
    (i < rows.length →
      ((generate_docs dataKeys rows).getD i defStep).progress =
        ((i : ℚ) + 1) / (rows.length : ℚ)) ∧
    (i < j → j < rows.length →
      ((generate_docs dataKeys rows).getD i defStep).progress <
        ((generate_docs dataKeys rows).getD j defStep).progress) ∧
    (0 < rows.length →
      ((generate_docs dataKeys rows).getD (rows.length - 1) defStep).progress = 1) := by
  refine ⟨?_, ?_, ?_⟩
  · intro hi
    rw [generate_docs, genDocsAux_getD dataKeys rows.length rows 0 i hi]
    norm_num
  · intro hij hj
    have hi : i < rows.length := by omega
    have hpos : 0 < rows.length := by omega
    have hqpos : (0 : ℚ) < (rows.length : ℚ) := by exact_mod_cast hpos
    rw [generate_docs, genDocsAux_getD dataKeys rows.length rows 0 i hi,
      genDocsAux_getD dataKeys rows.length rows 0 j hj]
    simp only
    rw [div_lt_div_iff_of_pos_right hqpos]
    have : (i : ℚ) < (j : ℚ) := by exact_mod_cast hij
    linarith
  · intro hpos
    have hqpos : (0 : ℚ) < (rows.length : ℚ) := by exact_mod_cast hpos
    rw [generate_docs,
      genDocsAux_getD dataKeys rows.length rows 0 (rows.length - 1) (by omega)]
    simp only
    have hc : ((rows.length - 1 : Nat) : ℚ) = (rows.length : ℚ) - 1 := by
      rw [Nat.cast_sub hpos, Nat.cast_one]
    rw [hc]
    field_simp

/-- Witness for C8: a single-record run posts progress (0+1)/1 and ends
at exactly 1, and a three-row run is strictly increasing from index 0 to
index 2, ending at exactly 1. -/
theorem generate_docs_progress_witness :
    ((generate_docs ["name_zh"] [["solo"]]).getD 0 defStep).progress =
      (((0 : Nat) : ℚ) + 1) / ((([["solo"]] : List (List String)).length : Nat) : ℚ) ∧
    ((generate_docs ["name_zh"] [["solo"]]).getD 0 defStep).progress = 1 ∧
    ((generate_docs ["name_zh"] [["a"], ["b"], ["c"]]).getD 0 defStep).progress <
      ((generate_docs ["name_zh"] [["a"], ["b"], ["c"]]).getD 2 defStep).progress ∧
    ((generate_docs ["name_zh"] [["a"], ["b"], ["c"]]).getD 2 defStep).progress = 1 :=
  ⟨(generate_docs_progress ["name_zh"] [["solo"]] 0 1).1 (by decide),
   (generate_docs_progress ["name_zh"] [["solo"]] 0 1).2.2 (by decide),
   (generate_docs_progress ["name_zh"] [["a"], ["b"], ["c"]] 0 2).2.1
     (by decide) (by decide),
   (generate_docs_progress ["name_zh"] [["a"], ["b"], ["c"]] 0 2).2.2 (by decide)⟩

/-- str.split never returns an empty list of parts. -/
theorem splitOnChar_ne_nil (sep : Char) : ∀ l : List Char, splitOnChar sep l ≠ []
  | [] => by simp [splitOnChar]
  | c :: rest => by
      rw [splitOnChar]
      cases hs : splitOnChar sep rest with
      | nil => simp
      | cons p ps => by_cases hc : c = sep <;> simp [hc]

/-- A list containing the separator splits into at least two parts. -/
theorem splitOnChar_two_le (sep : Char) :
    ∀ l : List Char, l.contains sep = true → 2 ≤ (splitOnChar sep l).length
  | [] => by simp
  | c :: rest => by
      intro h
      rw [splitOnChar]
      cases hs : splitOnChar sep rest with
      | nil => exact absurd hs (splitOnChar_ne_nil sep rest)
      | cons p ps =>
          by_cases hc : c = sep
          · simp [hc]
          · have hcs : sep ∈ c :: rest := List.elem_iff.mp h
            have hrest : rest.contains sep = true := by
              rcases List.mem_cons.mp hcs with hh | hh
              · exact absurd hh.symm hc
              · exact List.elem_iff.mpr hh
            have h2 := splitOnChar_two_le sep rest hrest
            rw [hs] at h2
            simpa [hc] using h2

/-- No part produced by str.split contains the separator. -/
theorem splitOnChar_no_sep (sep : Char) :
    ∀ (l : List Char) (p : List Char), p ∈ splitOnChar sep l → sep ∉ p
  | [], p => by
      intro hp
      simp [splitOnChar] at hp
      subst hp
      simp
  | c :: rest, p => by
      intro hp
      rw [splitOnChar] at hp
      cases hs : splitOnChar sep rest with
      | nil => exact absurd hs (splitOnChar_ne_nil sep rest)
      | cons q qs =>
          simp only [hs] at hp
          by_cases hc : c = sep
          · rw [if_pos hc] at hp
            rcases List.mem_cons.mp hp with rfl | hp2
            · simp
            · exact splitOnChar_no_sep sep rest p (by rw [hs]; exact hp2)
          · rw [if_neg hc] at hp
            rcases List.mem_cons.mp hp with rfl | hp2
            · intro hmem
              rcases List.mem_cons.mp hmem with rfl | hmem2
              · exact hc rfl
              · exact splitOnChar_no_sep sep rest q
                  (by rw [hs]; exact List.mem_cons_self q qs) hmem2
            · exact splitOnChar_no_sep sep rest p
                (by rw [hs]; exact List.mem_cons_of_mem q hp2)

/-- Stripping keeps only characters of the original list. -/
theorem mem_pyStrip {c : Char} {l : List Char} (h : c ∈ pyStrip l) : c ∈ l := by
  unfold pyStrip at h
  rw [List.mem_reverse] at h
  have h2 := (List.dropWhile_sublist isPySpace).mem h
  rw [List.mem_reverse] at h2
  exact (List.dropWhile_sublist isPySpace).mem h2

/-- int() of a string without a minus sign is non-negative. -/
theorem pyInt_nonneg (s : String) (hs : ('-' : Char) ∉ s.data) (n : Int)
    (h : pyInt s = some n) : 0 ≤ n := by
  unfold pyInt at h
  cases ht : pyStrip s.data with
  | nil => simp only [ht] at h; exact absurd h (by simp)
  | cons c rest =>
      simp only [ht] at h
      have hc : ¬ c = '-' := by
        intro hcc
        exact hs (mem_pyStrip (by rw [ht, hcc]; exact List.mem_cons_self _ _))
      by_cases hp : c = '+'
      · rw [if_pos hp] at h
        obtain ⟨k, -, rfl⟩ := Option.map_eq_some'.mp h
        exact Int.ofNat_nonneg k
      · rw [if_neg hp, if_neg hc] at h
        obtain ⟨k, -, rfl⟩ := Option.map_eq_some'.mp h
        exact Int.ofNat_nonneg k

/-- C7 (amended): when the admission-date value is a string containing
"-" that matched no date format, the part before the first "-" becomes
the admission year and the second part the admission month; the English
month name is produced for a second part parsing as an integer 1..12,
but an integer 0 indexes the empty string at month_name[0] (not
"Unknown"), and any other failure (no integer, integer above 12) yields
"Unknown".  Negative integers cannot arise, the parts being free of "-". -/
theorem adm_fallback_fields (s : String) (n : Int)
    (hdash : s.data.contains '-' = true) :
    2 ≤ (splitOnChar '-' s.data).length ∧
    (admFallback (Value.vStr s)).1 = String.mk ((splitOnChar '-' s.data).headD []) ∧
    (admFallback (Value.vStr s)).2.1 = String.mk ((splitOnChar '-' s.data).getD 1 []) ∧
    (pyInt (String.mk ((splitOnChar '-' s.data).getD 1 [])) = none →
      (admFallback (Value.vStr s)).2.2 = "Unknown") ∧
    (pyInt (String.mk ((splitOnChar '-' s.data).getD 1 [])) = some n →
      0 ≤ n ∧
      (1 ≤ n → n ≤ 12 → (admFallback (Value.vStr s)).2.2 = monthNames.getD n.toNat "") ∧
      (n = 0 → (admFallback (Value.vStr s)).2.2 = "") ∧
      (12 < n → (admFallback (Value.vStr s)).2.2 = "Unknown")) := by
  have hlen := splitOnChar_two_le '-' s.data hdash
  have hunf : admFallback (Value.vStr s) =
      (String.mk ((splitOnChar '-' s.data).headD []),
       String.mk ((splitOnChar '-' s.data).getD 1 []),
       monthFromPart (String.mk ((splitOnChar '-' s.data).getD 1 []))) := by
    simp only [admFallback, hdash]
    rw [if_pos (by omega : 1 < (splitOnChar '-' s.data).length), if_true]
  have h23 : (admFallback (Value.vStr s)).2.2 =
      monthFromPart (String.mk ((splitOnChar '-' s.data).getD 1 [])) := by
    rw [hunf]
  have hnodash : ('-' : Char) ∉ (splitOnChar '-' s.data).getD 1 [] := by
    have h1 : 1 < (splitOnChar '-' s.data).length := by omega
    rw [List.getD_eq_getElem _ _ h1]
    exact splitOnChar_no_sep '-' s.data _ (List.getElem_mem h1)
  refine ⟨hlen, by rw [hunf], by rw [hunf], ?_, ?_⟩
  · intro hnone
    rw [h23]
    simp only [monthFromPart, hnone]
  · intro hsome
    have hn0 : 0 ≤ n := pyInt_nonneg _ hnodash n hsome
    refine ⟨hn0, ?_, ?_, ?_⟩
    · intro h1 h12
      rw [h23]
      simp only [monthFromPart, hsome]
      interval_cases n <;> rfl
    · intro h0
      subst h0
      rw [h23]
      simp only [monthFromPart, hsome]
      rfl
    · intro h13
      rw [h23]
      simp only [monthFromPart, hsome]
      have hnone : pySeqGet monthNames n = none := by
        have hni : ¬ n < 0 := by omega
        simp only [pySeqGet, hni, if_false]
        rw [if_neg]
        intro hand
        have : (monthNames.length : Int) = 13 := by rfl
        omega
      simp only [hnone]

/-- C7 counterexample: the admission value "2024-0" matches no date
format; the fallback yields year "2024", month "0", and for the month
name index 0 of calendar.month_name, which is the empty string -- not
"Unknown", although 0 is not an integer from 1 to 12. -/
theorem adm_month_zero_empty :
    smart_date_parse (Value.vStr "2024-0") = none ∧
    admFallback (Value.vStr "2024-0") = ("2024", "0", "") ∧
    map_columns [Value.vStr "姓名", Value.vStr "入学年份"] = some colMapNameAdm ∧
    (parse_row_data isalphaModel pinyinModel (2025, 10, 12)
        [Value.vStr "张三", Value.vStr "2024-0"] colMapNameAdm).map
      (fun e => e.admit_month_en) = some "" ∧
    ¬ ("" : String) = "Unknown" :=
  ⟨by decide, by decide, by decide, by decide, by decide⟩

/-- Witness for C7: "2024-5" splits into year "2024" and month "5", whose
English month name is May. -/
theorem adm_fallback_fields_witness :
    2 ≤ (splitOnChar '-' ("2024-5" : String).data).length ∧
    (admFallback (Value.vStr "2024-5")).1 = "2024" ∧
    (admFallback (Value.vStr "2024-5")).2.1 = "5" ∧
    (admFallback (Value.vStr "2024-5")).2.2 = "May" := by
  have h := adm_fallback_fields "2024-5" 5 (by decide)
  refine ⟨h.1, h.2.1.trans (by decide), h.2.2.1.trans (by decide), ?_⟩
  exact ((h.2.2.2.2 (by decide)).2.1 (by decide) (by decide)).trans (by decide)

/-- The record parsed from the row ["张三", "男"] under the headers
["姓名", "性别"]. -/
def entryZhangSanMale : Entry :=
  { name_zh := "张三"
    gender_zh := "男"
    id_type_zh := "身份证"
    grade := ""
    student_id := ""
    id_number := ""
    dob_zh := ""
    dob_en := ""
    admit_year := "Unknown"
    admit_month := "Unknown"
    admit_month_en := "Unknown"
    date_zh := "2025年10月12日"
    date_en := "October 12, 2025"
    name_en := "Zhang, San"
    gender_en := "Male"
    id_type_en := "ID Card" }

/-- C10: in every parsed record the English gender is "Male" when the
source gender contains 男 (this branch wins even if 女 also appears),
"Female" when it contains 女 but not 男, and otherwise the source gender
string unchanged. -/
theorem gender_translation (isalpha : Char → Bool)
    (pinyin : String → List (List String)) (today : Nat × Nat × Nat)
    (row : List Value) (idx_map : List (String × Int)) (e : Entry)
    (h : parse_row_data isalpha pinyin today row idx_map = some e) :
    (containsSub "男" e.gender_zh = true → e.gender_en = "Male") ∧
    (containsSub "男" e.gender_zh = false → containsSub "女" e.gender_zh = true →
      e.gender_en = "Female") ∧
    (containsSub "男" e.gender_zh = false → containsSub "女" e.gender_zh = false →
      e.gender_en = e.gender_zh) := by
  have hg : e.gender_en = genderEnOf e.gender_zh := by
    unfold parse_row_data at h
    repeat' split at h
    all_goals first
      | exact Option.noConfusion h
      | (cases h; rfl)
  refine ⟨?_, ?_, ?_⟩
  · intro h1
    rw [hg, genderEnOf, if_pos h1]
  · intro h1 h2
    rw [hg, genderEnOf, if_neg (by simp [h1]), if_pos h2]
  · intro h1 h2
    rw [hg, genderEnOf, if_neg (by simp [h1]), if_neg (by simp [h2])]

/-- Witness for C10: the row ["张三", "男"] parses to a record whose
English gender is "Male". -/
theorem gender_translation_witness :
    parse_row_data isalphaModel pinyinModel (2025, 10, 12)
      [Value.vStr "张三", Value.vStr "男"] colMapNameGender =
        some entryZhangSanMale ∧
    entryZhangSanMale.gender_en = "Male" :=
  ⟨by decide,
   (gender_translation isalphaModel pinyinModel (2025, 10, 12)
      [Value.vStr "张三", Value.vStr "男"] colMapNameGender entryZhangSanMale
      (by decide)).1 (by decide)⟩
